import Mathlib

/-!
Verification model of the addr-spec crate (RFC 5322 `local-part "@" domain`
parser and serializer).  The embedding follows `src/parser.rs` and
`src/lib.rs`.  Build configuration modelled here: `literals` enabled,
`white-spaces` and `comments` disabled, `normalization` disabled (so
`unicode::normalize` is the byte-identical passthrough variant present in
`src/unicode.rs`).

Strings are modelled as `List Char`, matching the parser's `Chars` iterator;
error offsets are byte offsets, computed with `Char.utf8Size` exactly as the
Rust code computes `input.len() - iterator.as_str().len()` plus a relative
adjustment at each error site.
-/

namespace AddrSpecModel

/-- Rust `char::is_ascii_control`: U+0000..=U+001F or U+007F. -/
def isAsciiControl (c : Char) : Bool :=
  c.val < 32 || c.val == 127

/-- `parser.rs::is_ascii_control_and_not_htab`. -/
def is_ascii_control_and_not_htab (c : Char) : Bool :=
  isAsciiControl c && !(c == '\t')

/-- `parser.rs::is_ascii_control_or_space`. -/
def is_ascii_control_or_space (c : Char) : Bool :=
  isAsciiControl c || c == ' '

/-- `parser.rs::is_not_atext`. -/
def is_not_atext (c : Char) : Bool :=
  isAsciiControl c ||
    (c == ' ' || c == '"' || c == '(' || c == ')' || c == ',' || c == ':' ||
      c == '<' || c == '>' || c == '@' || c == '[' || c == ']' || c == '\\')

/-- `parser.rs::is_not_dtext`. -/
def is_not_dtext (c : Char) : Bool :=
  isAsciiControl c || (c == ' ' || c == '[' || c == ']' || c == '\\')

/-- Byte length of a character list under UTF-8, as Rust `str::len`. -/
def utf8Len (l : List Char) : Nat :=
  l.foldr (fun c n => c.utf8Size + n) 0

/-- `ParseError` is a static message plus a byte offset. -/
abbrev ParseErr := String × Nat

/-- The `AddrSpec` value: local part, domain, literal flag
(`literals` feature enabled). -/
structure AddrSpec where
  local_part : List Char
  domain : List Char
  literal : Bool
deriving DecidableEq, Repr

/-- `unicode::normalize` in the `normalization`-disabled build:
the identity passthrough (`value.into()`). -/
def normalize (l : List Char) : List Char := l

/-- Byte index of the first occurrence of `".."`, as Rust
`str::find("..")` on the dot-atom span. -/
def findDotDot : List Char → Option Nat
  | [] => none
  | [_] => none
  | c :: d :: rest =>
    if c == '.' && d == '.' then some 0
    else (findDotDot (d :: rest)).map (fun n => c.utf8Size + n)

/-- Rust `str::starts_with('.')` on a character list. -/
def startsDot : List Char → Bool
  | [] => false
  | c :: _ => c == '.'

/-- Rust `str::ends_with('.')` on a character list. -/
def endsDot : List Char → Bool
  | [] => false
  | [c] => c == '.'
  | _ :: rest => endsDot rest

/-- The validation half of `Parser::parse_dot_atom`, applied to the two
`let`-bound values (`dot_atom` and the unconsumed remainder): reject an
empty span, a leading dot, a doubled dot, or a trailing dot, at the
offsets the Rust code computes. -/
def dot_atom_check (emptyMsg emptyLabelMsg : String) (pos : Nat)
    (dotAtom rest : List Char) : Except ParseErr (List Char × Nat × List Char) :=
  if dotAtom.isEmpty then .error (emptyMsg, pos)
  else if startsDot dotAtom then .error (emptyLabelMsg, pos)
  else
    match findDotDot dotAtom with
    | some i => .error (emptyLabelMsg, pos + i)
    | none =>
      if endsDot dotAtom then .error (emptyLabelMsg, pos + (utf8Len dotAtom - 1))
      else .ok (dotAtom, pos + utf8Len dotAtom, rest)

/-- `Parser::parse_dot_atom`: scan the maximal atext span, then validate it.
Returns the span, the updated byte position, and the unconsumed input. -/
def parse_dot_atom (emptyMsg emptyLabelMsg : String) (pos : Nat)
    (input : List Char) : Except ParseErr (List Char × Nat × List Char) :=
  dot_atom_check emptyMsg emptyLabelMsg pos
    (input.takeWhile (fun c => !is_not_atext c))
    (input.drop (input.takeWhile (fun c => !is_not_atext c)).length)

/-- `Parser::parse_quoted_string` with the quoted-pair handling of
`Parser::parse_quoted_pair` inlined at its single call site.  The opening
quote has already been consumed; `pos` counts the bytes consumed so far. -/
def parse_quoted_string (invalidMsg expectedMsg : String) (pos : Nat)
    (input : List Char) : Except ParseErr (List Char × Nat × List Char) :=
  match input with
  | [] => .error (expectedMsg, pos)
  | c :: rest =>
    if c == '"' then .ok ([], pos + 1, rest)
    else if c == '\\' then
      match rest with
      | [] => .error ("unexpected end of quoted pair", pos + 1)
      | d :: rest' =>
        if is_ascii_control_and_not_htab d then
          .error ("invalid character in quoted pair", pos + 1 + d.utf8Size - 1)
        else
          match parse_quoted_string invalidMsg expectedMsg (pos + 1 + d.utf8Size) rest' with
          | .ok (s, p, r) => .ok (d :: s, p, r)
          | .error e => .error e
    else if is_ascii_control_or_space c then
      .error (invalidMsg, pos + c.utf8Size - 1)
    else
      match parse_quoted_string invalidMsg expectedMsg (pos + c.utf8Size) rest with
      | .ok (s, p, r) => .ok (c :: s, p, r)
      | .error e => .error e

/-- `Parser::parse_local_part`: quoted string when the next character is a
double quote, dot-atom otherwise; the result is normalized. -/
def parse_local_part (pos : Nat) (input : List Char) :
    Except ParseErr (List Char × Nat × List Char) :=
  match input with
  | c :: rest =>
    if c == '"' then
      match parse_quoted_string "invalid character in quoted local part"
          "expected '\"' for quoted local part" (pos + 1) rest with
      | .ok (s, p, r) => .ok (normalize s, p, r)
      | .error e => .error e
    else
      match parse_dot_atom "unquoted local part cannot be empty"
          "empty label in local part" pos (c :: rest) with
      | .ok (s, p, r) => .ok (normalize s, p, r)
      | .error e => .error e
  | [] =>
    match parse_dot_atom "unquoted local part cannot be empty"
        "empty label in local part" pos [] with
    | .ok (s, p, r) => .ok (normalize s, p, r)
    | .error e => .error e

/-- `Parser::skip_at`: consume a single `@`, else
`error("expected '@'", 1)` relative to the current position. -/
def skip_at (pos : Nat) (input : List Char) : Except ParseErr (Nat × List Char) :=
  match input with
  | c :: rest =>
    if c == '@' then .ok (pos + 1, rest)
    else .error ("expected '@'", pos + 1)
  | [] => .error ("expected '@'", pos + 1)

/-- The closing-bracket half of `Parser::parse_domain_literal`, applied to
the scanned span and the unconsumed remainder: `eat_chr(']')` or fail at
the position where the scan stopped. -/
def domain_literal_check (pos : Nat) (span rest : List Char) :
    Except ParseErr (List Char × Nat × List Char) :=
  match rest with
  | c :: rest' =>
    if c == ']' then .ok (span, pos + utf8Len span + 1, rest')
    else .error ("expected ']' for domain literal", pos + utf8Len span)
  | [] => .error ("expected ']' for domain literal", pos + utf8Len span)

/-- `Parser::parse_domain_literal`, `literals` enabled and `white-spaces`
disabled: scan the maximal dtext span, then require `]`. -/
def parse_domain_literal (pos : Nat) (input : List Char) :
    Except ParseErr (List Char × Nat × List Char) :=
  domain_literal_check pos
    (input.takeWhile (fun c => !is_not_dtext c))
    (input.drop (input.takeWhile (fun c => !is_not_dtext c)).length)

/-- `Parser::parse_domain`: domain literal when the next character is `[`
(`literals` feature), dot-atom otherwise; the result is normalized and
paired with the literal flag. -/
def parse_domain (pos : Nat) (input : List Char) :
    Except ParseErr ((List Char × Bool) × Nat × List Char) :=
  match input with
  | c :: rest =>
    if c == '[' then
      match parse_domain_literal (pos + 1) rest with
      | .ok (s, p, r) => .ok ((normalize s, true), p, r)
      | .error e => .error e
    else
      match parse_dot_atom "non-literal domain cannot be empty"
          "empty label in domain" pos (c :: rest) with
      | .ok (s, p, r) => .ok ((normalize s, false), p, r)
      | .error e => .error e
  | [] =>
    match parse_dot_atom "non-literal domain cannot be empty"
        "empty label in domain" pos [] with
    | .ok (s, p, r) => .ok ((normalize s, false), p, r)
    | .error e => .error e

/-- `Parser::check_end`: succeed exactly when the input is exhausted. -/
def check_end (msg : String) (pos : Nat) (input : List Char) :
    Except ParseErr Unit :=
  match input with
  | [] => .ok ()
  | _ => .error (msg, pos)

/-- `Parser::parse` (also `FromStr for AddrSpec`), with the `white-spaces`
and `comments` sub-grammars disabled: local part, `@`, domain, end. -/
def parse (input : List Char) : Except ParseErr AddrSpec :=
  match parse_local_part 0 input with
  | .error e => .error e
  | .ok (lp, pos1, r1) =>
    match skip_at pos1 r1 with
    | .error e => .error e
    | .ok (pos2, r2) =>
      match parse_domain pos2 r2 with
      | .error e => .error e
      | .ok ((d, lit), pos3, r3) =>
        match check_end "expected end of address" pos3 r3 with
        | .error e => .error e
        | .ok _ => .ok ⟨lp, d, lit⟩

/-- Rust `str::split('.')` on a character list: the list of segments
between dots (an empty input yields one empty segment). -/
def splitOnDot : List Char → List (List Char)
  | [] => [[]]
  | c :: rest =>
    if c == '.' then [] :: splitOnDot rest
    else
      match splitOnDot rest with
      | s :: ss => (c :: s) :: ss
      | [] => [[c]]

/-- `AddrSpec::is_quoted`: some dot-segment of the local part is empty or
contains a non-atext character. -/
def AddrSpec.is_quoted (a : AddrSpec) : Bool :=
  (splitOnDot a.local_part).any (fun s => s.isEmpty || s.any is_not_atext)

/-- `AddrSpec::is_literal`: the stored literal flag (`literals` enabled). -/
def AddrSpec.is_literal (a : AddrSpec) : Bool := a.literal

/-- Membership in the escape set of `lib.rs::quote`, i.e. the pattern
`b'\\', b'"' | b' ' | b'\t'` handed to `ascii::escape!`. -/
def escapedChar (c : Char) : Bool :=
  c == '\\' || (c == '"' || c == ' ' || c == '\t')

/-- `lib.rs::quote` via `ascii::escape!`: precede every occurrence of a
byte from the escape set with a backslash.  All escape-set members are
ASCII bytes, which never occur inside a multi-byte UTF-8 sequence, so the
byte-level scan coincides with this character-level one. -/
def quote : List Char → List Char
  | [] => []
  | c :: rest => if escapedChar c then '\\' :: c :: quote rest else c :: quote rest

/-- `impl fmt::Display for AddrSpec`: quote and escape the local part when
needed, bracket the domain when literal. -/
def display (a : AddrSpec) : List Char :=
  (if a.is_quoted then '"' :: (quote a.local_part ++ ['"']) else a.local_part)
    ++ '@' :: (if a.is_literal then '[' :: (a.domain ++ [']']) else a.domain)

/-- `AddrSpec::into_serialized_parts`: the four quoted-by-literal cases. -/
def AddrSpec.into_serialized_parts (a : AddrSpec) : List Char × List Char :=
  match a.is_quoted, a.is_literal with
  | false, false => (a.local_part, a.domain)
  | true, false => ('"' :: (quote a.local_part ++ ['"']), a.domain)
  | false, true => (a.local_part, '[' :: (a.domain ++ [']']))
  | true, true => ('"' :: (quote a.local_part ++ ['"']), '[' :: (a.domain ++ [']']))

/-- Byte index of the first character satisfying a predicate, as Rust
`str::find(pred)`. -/
def findByteIdx (p : Char → Bool) : List Char → Option Nat
  | [] => none
  | c :: rest => if p c then some 0 else (findByteIdx p rest).map (fun n => c.utf8Size + n)

/-- `AddrSpec::new_impl`: reject a control character (tab excepted) in the
local part; validate a literal domain for dtext only, a non-literal domain
with the dot-atom sub-routine followed by `check_end`; then normalize.
The `lib.rs` call site hands the dot-atom routine the single merged
message "empty label in domain", modelled here by using it for both
message slots. -/
def new_impl (local_part domain : List Char) (literal : Bool) :
    Except ParseErr AddrSpec :=
  match findByteIdx is_ascii_control_and_not_htab local_part with
  | some i => .error ("invalid character in local part", i)
  | none =>
    if literal then
      match findByteIdx is_not_dtext domain with
      | some i => .error ("invalid character in literal domain", i)
      | none => .ok ⟨normalize local_part, normalize domain, literal⟩
    else
      match parse_dot_atom "empty label in domain" "empty label in domain" 0 domain with
      | .error e => .error e
      | .ok (_, pos, rest) =>
        match check_end "invalid character in domain" pos rest with
        | .error e => .error e
        | .ok _ => .ok ⟨normalize local_part, normalize domain, literal⟩

/-- `AddrSpec::new`. -/
def new (local_part domain : List Char) : Except ParseErr AddrSpec :=
  new_impl local_part domain false

/-- Boolean presence of a doubled dot, the structural counterpart of
`findDotDot`. -/
def hasDotDot : List Char → Bool
  | [] => false
  | [_] => false
  | c :: d :: rest => (c == '.' && d == '.') || hasDotDot (d :: rest)

/-- The shape of a span accepted by the dot-atom sub-routine. -/
def dotAtomSpan (l : List Char) : Prop :=
  l ≠ [] ∧ startsDot l = false ∧ findDotDot l = none ∧ endsDot l = false ∧
    ∀ c ∈ l, is_not_atext c = false

/-- The character class named by the specification for `is_quoted`: a
control character or one of the twelve listed delimiters. -/
def specForbiddenChar (c : Char) : Bool :=
  c.val < 32 || c.val == 127 ||
    (c == ' ' || c == '"' || c == '(' || c == ')' || c == ',' || c == ':' ||
      c == '<' || c == '>' || c == '@' || c == '[' || c == ']' || c == '\\')

/-- The glossary's dot-atom shape, stated on the whole string: nonempty,
every character atext, and no empty dot-separated label. -/
def validDotAtom (d : List Char) : Bool :=
  !d.isEmpty && d.all (fun c => !is_not_atext c)
    && !(splitOnDot d).any (fun s => s.isEmpty)

/-! ### Helper lemmas -/

theorem takeWhile_append_all (p : Char → Bool) (l r : List Char)
    (h : ∀ c ∈ l, p c = true) :
    (l ++ r).takeWhile p = l ++ r.takeWhile p := by
  induction l with
  | nil => rfl
  | cons c cs ih =>
    simp only [List.cons_append, List.takeWhile_cons, h c (by simp), if_true]
    rw [ih (fun x hx => h x (by simp [hx]))]

theorem splitOnDot_ne_nil (l : List Char) : splitOnDot l ≠ [] := by
  match l with
  | [] => simp [splitOnDot]
  | c :: rest =>
    rw [splitOnDot]
    split
    · simp
    · split <;> simp

theorem splitOnDot_dot (rest : List Char) :
    splitOnDot ('.' :: rest) = [] :: splitOnDot rest := by
  rw [splitOnDot]
  simp

theorem splitOnDot_cons (c : Char) (rest s : List Char) (ss : List (List Char))
    (hc : ¬c = '.') (hs : splitOnDot rest = s :: ss) :
    splitOnDot (c :: rest) = (c :: s) :: ss := by
  rw [splitOnDot, hs]
  simp [hc]

theorem findDotDot_isSome (l : List Char) :
    (findDotDot l).isSome = hasDotDot l := by
  match l with
  | [] => rfl
  | [_] => rfl
  | c :: d :: rest =>
    rw [findDotDot, hasDotDot]
    by_cases h : (c == '.' && d == '.') = true
    · simp [h]
    · simp only [h, if_neg, Bool.false_or]
      rw [← findDotDot_isSome (d :: rest)]
      cases findDotDot (d :: rest) <;> simp [h]

theorem any_or_distrib {α : Type} (L : List α) (f g : α → Bool) :
    L.any (fun s => f s || g s) = (L.any f || L.any g) := by
  induction L with
  | nil => rfl
  | cons x xs ih =>
    simp only [List.any_cons, ih]
    cases f x <;> cases g x <;> simp

theorem splitOnDot_exists (rest : List Char) :
    ∃ s ss, splitOnDot rest = s :: ss := by
  cases h : splitOnDot rest with
  | nil => exact absurd h (splitOnDot_ne_nil _)
  | cons s ss => exact ⟨s, ss, rfl⟩

theorem emptySeg_spec (l : List Char) :
    ((splitOnDot l).any (fun s => s.isEmpty)
        = (l.isEmpty || startsDot l || endsDot l || hasDotDot l))
      ∧ (((splitOnDot l).tail).any (fun s => s.isEmpty)
        = (endsDot l || hasDotDot l)) := by
  match l with
  | [] => exact ⟨rfl, rfl⟩
  | [c] =>
    by_cases hc : c = '.'
    · subst hc
      refine ⟨?_, ?_⟩ <;> rfl
    · rw [splitOnDot, if_neg (by simp [hc])]
      refine ⟨?_, ?_⟩ <;>
        simp [splitOnDot, startsDot, endsDot, hasDotDot, hc]
  | c :: d :: rest =>
    have ih := emptySeg_spec (d :: rest)
    have hend : endsDot (c :: d :: rest) = endsDot (d :: rest) := rfl
    by_cases hc : c = '.'
    · subst hc
      have hdd : hasDotDot ('.' :: d :: rest)
          = ((d == '.') || hasDotDot (d :: rest)) := by
        rw [hasDotDot]; simp
      constructor
      · rw [splitOnDot_dot]
        simp [startsDot]
      · rw [splitOnDot_dot]
        show (splitOnDot (d :: rest)).any (fun s => s.isEmpty) = _
        rw [ih.1, hend, hdd]
        have hst : startsDot (d :: rest) = (d == '.') := rfl
        have hemp : ((d :: rest).isEmpty : Bool) = false := rfl
        rw [hst, hemp]
        cases hb1 : (d == '.') <;> cases hb2 : endsDot (d :: rest) <;>
          cases hb3 : hasDotDot (d :: rest) <;> rfl
    · obtain ⟨s, ss, hs⟩ := splitOnDot_exists (d :: rest)
      have hrw := splitOnDot_cons c (d :: rest) s ss hc hs
      have htail : ss = (splitOnDot (d :: rest)).tail := by
        rw [hs, List.tail_cons]
      have hdd : hasDotDot (c :: d :: rest) = hasDotDot (d :: rest) := by
        rw [hasDotDot]; simp [hc]
      have hst : startsDot (c :: d :: rest) = false := by
        simp [startsDot, hc]
      constructor
      · rw [hrw]
        show (((c :: s) :: ss).any (fun s => s.isEmpty)) = _
        have hne : ((c :: s).isEmpty : Bool) = false := rfl
        simp only [List.any_cons, hne, Bool.false_or]
        rw [htail, ih.2, hend, hdd, hst]
        rfl
      · rw [hrw]
        show ss.any (fun s => s.isEmpty) = _
        rw [htail, ih.2, hend, hdd]

theorem segAny_eq (p : Char → Bool) (hp : p '.' = false) (l : List Char) :
    (splitOnDot l).any (fun s => s.any p) = l.any p := by
  match l with
  | [] => simp [splitOnDot]
  | c :: rest =>
    have ih := segAny_eq p hp rest
    by_cases hc : c = '.'
    · subst hc
      rw [splitOnDot_dot]
      simp [List.any_cons, hp, ih]
    · obtain ⟨s, ss, hs⟩ := splitOnDot_exists rest
      have hrw := splitOnDot_cons c rest s ss hc hs
      rw [hrw]
      rw [hs] at ih
      simp only [List.any_cons] at ih ⊢
      rw [← ih]
      cases p c <;> simp

theorem utf8Len_cons (c : Char) (l : List Char) :
    utf8Len (c :: l) = c.utf8Size + utf8Len l := rfl

theorem drop_takeWhile_length (p : Char → Bool) (l : List Char) :
    l.drop (l.takeWhile p).length = l.dropWhile p := by
  induction l with
  | nil => rfl
  | cons c cs ih =>
    rw [List.takeWhile_cons, List.dropWhile_cons]
    by_cases h : p c = true
    · simp only [h, if_true, List.length_cons, List.drop_succ_cons]
      exact ih
    · simp [h]

theorem dot_atom_check_ok (e1 e2 : String) (pos : Nat) (da rest s : List Char)
    (p : Nat) (r : List Char)
    (h : dot_atom_check e1 e2 pos da rest = .ok (s, p, r)) :
    s = da ∧ r = rest ∧ p = pos + utf8Len da ∧ da ≠ [] ∧
      startsDot da = false ∧ findDotDot da = none ∧ endsDot da = false := by
  rw [dot_atom_check] at h
  by_cases h1 : (da.isEmpty : Bool) = true
  · rw [if_pos h1] at h
    exact absurd h (by simp)
  · rw [if_neg h1] at h
    by_cases h2 : startsDot da = true
    · rw [if_pos h2] at h
      exact absurd h (by simp)
    · rw [if_neg h2] at h
      cases hf : findDotDot da with
      | some i =>
        rw [hf] at h
        exact absurd h (by simp)
      | none =>
        rw [hf] at h
        by_cases h3 : endsDot da = true
        · rw [if_pos h3] at h
          exact absurd h (by simp)
        · rw [if_neg h3] at h
          injection h with h
          injection h with hs h
          injection h with hp hr
          exact ⟨hs.symm, hr.symm, hp.symm, by simpa using h1,
            by simpa using h2, rfl, by simpa using h3⟩

theorem dot_atom_check_accepts (e1 e2 : String) (pos : Nat) (da rest : List Char)
    (hne : da ≠ []) (hstart : startsDot da = false)
    (hfind : findDotDot da = none) (hend : endsDot da = false) :
    dot_atom_check e1 e2 pos da rest = .ok (da, pos + utf8Len da, rest) := by
  rw [dot_atom_check]
  rw [if_neg (by simpa using hne), if_neg (by simp [hstart]), hfind,
    if_neg (by simp [hend])]

theorem parse_dot_atom_ok (e1 e2 : String) (pos : Nat) (input s : List Char)
    (p : Nat) (r : List Char)
    (h : parse_dot_atom e1 e2 pos input = .ok (s, p, r)) :
    dotAtomSpan s ∧ input = s ++ r ∧ p = pos + utf8Len s := by
  rw [parse_dot_atom] at h
  obtain ⟨hs, hr, hp, hne, hstart, hfind, hend⟩ :=
    dot_atom_check_ok _ _ _ _ _ _ _ _ h
  subst hs
  refine ⟨⟨hne, hstart, hfind, hend, ?_⟩, ?_, hp⟩
  · intro c hc
    have := List.mem_takeWhile_imp hc
    simpa using this
  · rw [hr]
    conv_lhs => rw [← List.takeWhile_append_dropWhile
      (p := fun c => !is_not_atext c) (l := input)]
    rw [drop_takeWhile_length]

theorem parse_dot_atom_roundtrip (e1 e2 : String) (pos : Nat) (s r : List Char)
    (hs : dotAtomSpan s)
    (hr : r = [] ∨ ∃ c r2, r = c :: r2 ∧ is_not_atext c = true) :
    parse_dot_atom e1 e2 pos (s ++ r) = .ok (s, pos + utf8Len s, r) := by
  obtain ⟨hne, hstart, hfind, hend, hall⟩ := hs
  have htake : (s ++ r).takeWhile (fun c => !is_not_atext c) = s := by
    rw [takeWhile_append_all _ _ _ (fun c hc => by simp [hall c hc])]
    rcases hr with rfl | ⟨c, r2, rfl, hc⟩
    · simp
    · simp [List.takeWhile_cons, hc]
  rw [parse_dot_atom, htake, List.drop_left]
  exact dot_atom_check_accepts e1 e2 pos s r hne hstart hfind hend

theorem not_atext_not_ctl {c : Char} (h : is_not_atext c = false) :
    is_ascii_control_and_not_htab c = false := by
  simp only [is_not_atext, Bool.or_eq_false_iff] at h
  simp [is_ascii_control_and_not_htab, h.1]

theorem pqs_nil (im em : String) (pos : Nat) :
    parse_quoted_string im em pos [] = .error (em, pos) := rfl

theorem pqs_one (im em : String) (pos : Nat) (c : Char) :
    parse_quoted_string im em pos [c] =
      (if c == '"' then .ok ([], pos + 1, ([] : List Char))
       else if c == '\\' then .error ("unexpected end of quoted pair", pos + 1)
       else if is_ascii_control_or_space c then
         .error (im, pos + c.utf8Size - 1)
       else .error (em, pos + c.utf8Size)) := rfl

theorem pqs_two (im em : String) (pos : Nat) (c d : Char) (rest2 : List Char) :
    parse_quoted_string im em pos (c :: d :: rest2) =
      (if c == '"' then .ok ([], pos + 1, d :: rest2)
       else if c == '\\' then
         (if is_ascii_control_and_not_htab d then
            .error ("invalid character in quoted pair", pos + 1 + d.utf8Size - 1)
          else
            match parse_quoted_string im em (pos + 1 + d.utf8Size) rest2 with
            | .ok (s, p, r) => .ok (d :: s, p, r)
            | .error e => .error e)
       else if is_ascii_control_or_space c then
         .error (im, pos + c.utf8Size - 1)
       else
         match parse_quoted_string im em (pos + c.utf8Size) (d :: rest2) with
         | .ok (s, p, r) => .ok (c :: s, p, r)
         | .error e => .error e) := rfl

theorem notspace_notctl {c : Char} (h : is_ascii_control_or_space c = false) :
    is_ascii_control_and_not_htab c = false := by
  simp only [is_ascii_control_or_space, Bool.or_eq_false_iff] at h
  simp [is_ascii_control_and_not_htab, h.1]

theorem parse_quoted_string_ok_chars (im em : String) (input : List Char)
    (pos : Nat) (s : List Char) (p : Nat) (r : List Char)
    (h : parse_quoted_string im em pos input = .ok (s, p, r)) :
    ∀ c ∈ s, is_ascii_control_and_not_htab c = false := by
  rcases input with _ | ⟨c, _ | ⟨d, rest2⟩⟩
  · rw [pqs_nil] at h
    exact absurd h (by simp)
  · rw [pqs_one] at h
    by_cases hq : (c == '"') = true
    · rw [if_pos hq] at h
      injection h with h
      injection h with hs h
      subst hs
      simp
    · rw [if_neg hq] at h
      by_cases hb : (c == '\\') = true
      · rw [if_pos hb] at h
        exact absurd h (by simp)
      · rw [if_neg hb] at h
        by_cases hsp : is_ascii_control_or_space c = true
        · rw [if_pos hsp] at h
          exact absurd h (by simp)
        · rw [if_neg hsp] at h
          exact absurd h (by simp)
  · rw [pqs_two] at h
    by_cases hq : (c == '"') = true
    · rw [if_pos hq] at h
      injection h with h
      injection h with hs h
      subst hs
      simp
    · rw [if_neg hq] at h
      by_cases hb : (c == '\\') = true
      · rw [if_pos hb] at h
        by_cases hctl : is_ascii_control_and_not_htab d = true
        · rw [if_pos hctl] at h
          exact absurd h (by simp)
        · rw [if_neg hctl] at h
          cases hcall : parse_quoted_string im em (pos + 1 + d.utf8Size) rest2 with
          | error e =>
            rw [hcall] at h
            exact absurd h (by simp)
          | ok v =>
            obtain ⟨s2, p2, r2⟩ := v
            rw [hcall] at h
            injection h with h
            injection h with hs h
            subst hs
            intro x hx
            rcases List.mem_cons.mp hx with rfl | hx
            · simpa using hctl
            · exact parse_quoted_string_ok_chars im em rest2 _ s2 p2 r2 hcall x hx
      · rw [if_neg hb] at h
        by_cases hsp : is_ascii_control_or_space c = true
        · rw [if_pos hsp] at h
          exact absurd h (by simp)
        · rw [if_neg hsp] at h
          cases hcall : parse_quoted_string im em (pos + c.utf8Size) (d :: rest2) with
          | error e =>
            rw [hcall] at h
            exact absurd h (by simp)
          | ok v =>
            obtain ⟨s2, p2, r2⟩ := v
            rw [hcall] at h
            injection h with h
            injection h with hs h
            subst hs
            intro x hx
            rcases List.mem_cons.mp hx with rfl | hx
            · exact notspace_notctl (by simpa using hsp)
            · exact parse_quoted_string_ok_chars im em (d :: rest2) _ s2 p2 r2 hcall x hx

theorem pqs_backslash (im em : String) (pos : Nat) (d : Char) (rest2 : List Char) :
    parse_quoted_string im em pos ('\\' :: d :: rest2) =
      (if is_ascii_control_and_not_htab d then
         .error ("invalid character in quoted pair", pos + 1 + d.utf8Size - 1)
       else
         match parse_quoted_string im em (pos + 1 + d.utf8Size) rest2 with
         | .ok (s, p, r) => .ok (d :: s, p, r)
         | .error e => .error e) := by
  rw [pqs_two, if_neg (by decide), if_pos (by decide)]

theorem pqs_quote (im em : String) (pos : Nat) (rest : List Char) :
    parse_quoted_string im em pos ('"' :: rest) = .ok ([], pos + 1, rest) := by
  cases rest with
  | nil => rw [pqs_one, if_pos (by decide)]
  | cons d rest2 => rw [pqs_two, if_pos (by decide)]

theorem pqs_plain (im em : String) (pos : Nat) (c : Char) (rest : List Char)
    (hq : (c == '"') = false) (hb : (c == '\\') = false)
    (hsp : is_ascii_control_or_space c = false) :
    parse_quoted_string im em pos (c :: rest) =
      (match parse_quoted_string im em (pos + c.utf8Size) rest with
       | .ok (s, p, r) => .ok (c :: s, p, r)
       | .error e => .error e) := by
  cases rest with
  | nil =>
    rw [pqs_one, if_neg (by simp [hq]), if_neg (by simp [hb]),
      if_neg (by simp [hsp]), pqs_nil]
  | cons d rest2 =>
    rw [pqs_two, if_neg (by simp [hq]), if_neg (by simp [hb]),
      if_neg (by simp [hsp])]

theorem escaped_not_ctl {c : Char} (hc : is_ascii_control_and_not_htab c = false)
    (he : escapedChar c = false) :
    ((c == '"') = false) ∧ ((c == '\\') = false) ∧
      is_ascii_control_or_space c = false := by
  simp only [escapedChar, Bool.or_eq_false_iff] at he
  obtain ⟨hb, ⟨hq, hsp⟩, htab⟩ := he
  refine ⟨hq, hb, ?_⟩
  simp only [is_ascii_control_and_not_htab, Bool.and_eq_false_iff] at hc
  rcases hc with hc | hc
  · simp [is_ascii_control_or_space, hc, hsp]
  · exact absurd hc (by simpa using htab)

theorem quote_reparse (im em : String) (lp : List Char)
    (hlp : ∀ c ∈ lp, is_ascii_control_and_not_htab c = false)
    (pos : Nat) (r : List Char) :
    parse_quoted_string im em pos (quote lp ++ '"' :: r)
      = .ok (lp, pos + utf8Len (quote lp) + 1, r) := by
  induction lp generalizing pos with
  | nil =>
    rw [show quote [] = [] from rfl, List.nil_append, pqs_quote]
    rfl
  | cons c cs ih =>
    have hc := hlp c (by simp)
    have ihc := ih (fun x hx => hlp x (by simp [hx]))
    by_cases he : escapedChar c = true
    · rw [show quote (c :: cs) = '\\' :: c :: quote cs by rw [quote, if_pos he]]
      rw [List.cons_append, List.cons_append, pqs_backslash,
        if_neg (by simp [hc]), ihc]
      have harith : pos + 1 + c.utf8Size + utf8Len (quote cs) + 1
          = pos + utf8Len ('\\' :: c :: quote cs) + 1 := by
        rw [utf8Len_cons, utf8Len_cons, show ('\\').utf8Size = 1 from rfl]
        omega
      rw [harith]
    · rw [show quote (c :: cs) = c :: quote cs by
        rw [quote, if_neg (by simp [he])]]
      obtain ⟨hq, hb, hsp⟩ := escaped_not_ctl hc (by simpa using he)
      rw [List.cons_append, pqs_plain im em _ c _ hq hb hsp, ihc]
      have harith : pos + c.utf8Size + utf8Len (quote cs) + 1
          = pos + utf8Len (c :: quote cs) + 1 := by
        rw [utf8Len_cons]
        omega
      rw [harith]

theorem dlc_nil (pos : Nat) (span : List Char) :
    domain_literal_check pos span []
      = .error ("expected ']' for domain literal", pos + utf8Len span) := rfl

theorem dlc_cons (pos : Nat) (span : List Char) (c : Char) (rest2 : List Char) :
    domain_literal_check pos span (c :: rest2) =
      (if c == ']' then .ok (span, pos + utf8Len span + 1, rest2)
       else .error ("expected ']' for domain literal", pos + utf8Len span)) := rfl

theorem domain_literal_reparse (pos : Nat) (s r : List Char)
    (hs : ∀ c ∈ s, is_not_dtext c = false) :
    parse_domain_literal pos (s ++ ']' :: r)
      = .ok (s, pos + utf8Len s + 1, r) := by
  have htake : (s ++ ']' :: r).takeWhile (fun c => !is_not_dtext c) = s := by
    rw [takeWhile_append_all _ _ _ (fun c hc => by simp [hs c hc])]
    simp [List.takeWhile_cons, is_not_dtext]
  rw [parse_domain_literal, htake, List.drop_left, dlc_cons, if_pos (by decide)]

theorem dlc_ok (pos : Nat) (span rest s : List Char) (p : Nat) (r : List Char)
    (h : domain_literal_check pos span rest = .ok (s, p, r)) : s = span := by
  cases rest with
  | nil =>
    rw [dlc_nil] at h
    exact absurd h (by simp)
  | cons c rest2 =>
    rw [dlc_cons] at h
    by_cases hc : (c == ']') = true
    · rw [if_pos hc] at h
      injection h with h
      injection h with hs h
      exact hs.symm
    · rw [if_neg hc] at h
      exact absurd h (by simp)

theorem parse_domain_literal_ok_chars (pos : Nat) (input s : List Char)
    (p : Nat) (r : List Char)
    (h : parse_domain_literal pos input = .ok (s, p, r)) :
    ∀ c ∈ s, is_not_dtext c = false := by
  rw [parse_domain_literal] at h
  have hs := dlc_ok _ _ _ _ _ _ h
  subst hs
  intro c hc
  simpa using List.mem_takeWhile_imp hc

theorem plp_nil (pos : Nat) :
    parse_local_part pos []
      = .error ("unquoted local part cannot be empty", pos) := rfl

theorem plp_cons (pos : Nat) (c : Char) (rest : List Char) :
    parse_local_part pos (c :: rest) =
      (if c == '"' then
         match parse_quoted_string "invalid character in quoted local part"
             "expected '\"' for quoted local part" (pos + 1) rest with
         | .ok (s, p, r) => .ok (normalize s, p, r)
         | .error e => .error e
       else
         match parse_dot_atom "unquoted local part cannot be empty"
             "empty label in local part" pos (c :: rest) with
         | .ok (s, p, r) => .ok (normalize s, p, r)
         | .error e => .error e) := rfl

theorem pd_nil (pos : Nat) :
    parse_domain pos []
      = .error ("non-literal domain cannot be empty", pos) := rfl

theorem pd_cons (pos : Nat) (c : Char) (rest : List Char) :
    parse_domain pos (c :: rest) =
      (if c == '[' then
         match parse_domain_literal (pos + 1) rest with
         | .ok (s, p, r) => .ok ((normalize s, true), p, r)
         | .error e => .error e
       else
         match parse_dot_atom "non-literal domain cannot be empty"
             "empty label in domain" pos (c :: rest) with
         | .ok (s, p, r) => .ok ((normalize s, false), p, r)
         | .error e => .error e) := rfl

theorem skip_at_ok (pos : Nat) (t : List Char) :
    skip_at pos ('@' :: t) = .ok (pos + 1, t) := rfl

theorem check_end_nil (msg : String) (pos : Nat) :
    check_end msg pos [] = .ok () := rfl

theorem not_atext_ne {c x : Char} (h : is_not_atext c = false)
    (hx : is_not_atext x = true) : (c == x) = false := by
  by_cases hcx : (c == x) = true
  · have hce : c = x := by simpa using hcx
    subst hce
    rw [h] at hx
    cases hx
  · simpa using hcx

theorem parse_steps (input lp dd : List Char) (lit : Bool) (p1 : Nat)
    (r1 : List Char) (p2 : Nat) (r2 : List Char) (p3 : Nat) (r3 : List Char)
    (h1 : parse_local_part 0 input = .ok (lp, p1, r1))
    (h2 : skip_at p1 r1 = .ok (p2, r2))
    (h3 : parse_domain p2 r2 = .ok ((dd, lit), p3, r3))
    (h4 : check_end "expected end of address" p3 r3 = .ok ()) :
    parse input = .ok ⟨lp, dd, lit⟩ := by
  unfold parse
  simp only [h1, h2, h3, h4]

theorem parse_local_part_ok_chars (pos : Nat) (input lp : List Char) (p : Nat)
    (r : List Char) (h : parse_local_part pos input = .ok (lp, p, r)) :
    ∀ c ∈ lp, is_ascii_control_and_not_htab c = false := by
  rcases input with _ | ⟨c, rest⟩
  · rw [plp_nil] at h
    exact absurd h (by simp)
  · rw [plp_cons] at h
    by_cases hq : (c == '"') = true
    · rw [if_pos hq] at h
      cases hcall : parse_quoted_string "invalid character in quoted local part"
          "expected '\"' for quoted local part" (pos + 1) rest with
      | error e =>
        rw [hcall] at h
        exact absurd h (by simp)
      | ok v =>
        obtain ⟨s, p2, r2⟩ := v
        rw [hcall] at h
        injection h with h
        injection h with hs h
        simp only [normalize] at hs
        subst hs
        exact parse_quoted_string_ok_chars _ _ rest _ _ _ _ hcall
    · rw [if_neg hq] at h
      cases hcall : parse_dot_atom "unquoted local part cannot be empty"
          "empty label in local part" pos (c :: rest) with
      | error e =>
        rw [hcall] at h
        exact absurd h (by simp)
      | ok v =>
        obtain ⟨s, p2, r2⟩ := v
        rw [hcall] at h
        injection h with h
        injection h with hs h
        simp only [normalize] at hs
        subst hs
        obtain ⟨⟨_, _, _, _, hall⟩, _, _⟩ := parse_dot_atom_ok _ _ _ _ _ _ _ hcall
        exact fun x hx => not_atext_not_ctl (hall x hx)

theorem parse_domain_ok_inv (pos : Nat) (input dd : List Char) (lit : Bool)
    (p : Nat) (r : List Char)
    (h : parse_domain pos input = .ok ((dd, lit), p, r)) :
    (lit = false → dotAtomSpan dd) ∧
      (lit = true → ∀ c ∈ dd, is_not_dtext c = false) := by
  rcases input with _ | ⟨c, rest⟩
  · rw [pd_nil] at h
    exact absurd h (by simp)
  · rw [pd_cons] at h
    by_cases hb : (c == '[') = true
    · rw [if_pos hb] at h
      cases hcall : parse_domain_literal (pos + 1) rest with
      | error e =>
        rw [hcall] at h
        exact absurd h (by simp)
      | ok v =>
        obtain ⟨s, p2, r2⟩ := v
        rw [hcall] at h
        injection h with h
        injection h with hdl h
        injection hdl with hd hlit
        simp only [normalize] at hd
        subst hd
        refine ⟨fun hf => absurd (hlit.trans hf) (by simp), fun _ => ?_⟩
        exact parse_domain_literal_ok_chars _ _ _ _ _ hcall
    · rw [if_neg hb] at h
      cases hcall : parse_dot_atom "non-literal domain cannot be empty"
          "empty label in domain" pos (c :: rest) with
      | error e =>
        rw [hcall] at h
        exact absurd h (by simp)
      | ok v =>
        obtain ⟨s, p2, r2⟩ := v
        rw [hcall] at h
        injection h with h
        injection h with hdl h
        injection hdl with hd hlit
        simp only [normalize] at hd
        subst hd
        refine ⟨fun _ => ?_, fun ht => absurd (hlit.trans ht) (by simp)⟩
        exact (parse_dot_atom_ok _ _ _ _ _ _ _ hcall).1

theorem parse_ok_inv (input lp dd : List Char) (lit : Bool)
    (h : parse input = .ok ⟨lp, dd, lit⟩) :
    (∀ c ∈ lp, is_ascii_control_and_not_htab c = false) ∧
      (lit = false → dotAtomSpan dd) ∧
      (lit = true → ∀ c ∈ dd, is_not_dtext c = false) := by
  unfold parse at h
  cases h1 : parse_local_part 0 input with
  | error e =>
    rw [h1] at h
    exact absurd h (by simp)
  | ok v1 =>
    obtain ⟨lp1, p1, r1⟩ := v1
    rw [h1] at h
    simp only [] at h
    cases h2 : skip_at p1 r1 with
    | error e =>
      rw [h2] at h
      exact absurd h (by simp)
    | ok v2 =>
      obtain ⟨p2, r2⟩ := v2
      rw [h2] at h
      simp only [] at h
      cases h3 : parse_domain p2 r2 with
      | error e =>
        rw [h3] at h
        exact absurd h (by simp)
      | ok v3 =>
        obtain ⟨⟨dd1, lit1⟩, p3, r3⟩ := v3
        rw [h3] at h
        simp only [] at h
        cases h4 : check_end "expected end of address" p3 r3 with
        | error e =>
          rw [h4] at h
          exact absurd h (by simp)
        | ok u =>
          cases u
          rw [h4] at h
          simp only [] at h
          injection h with h
          injection h with hlp hdd hlit
          subst hlp
          subst hdd
          subst hlit
          refine ⟨parse_local_part_ok_chars _ _ _ _ _ h1, ?_, ?_⟩
          · exact fun hf => (parse_domain_ok_inv _ _ _ _ _ _ h3).1 hf
          · exact fun ht => (parse_domain_ok_inv _ _ _ _ _ _ h3).2 ht

theorem is_quoted_false_iff (l : List Char) :
    ((splitOnDot l).any (fun s => s.isEmpty || s.any is_not_atext) = false)
      ↔ dotAtomSpan l := by
  rw [any_or_distrib, Bool.or_eq_false_iff, (emptySeg_spec l).1,
    segAny_eq is_not_atext (by decide) l]
  simp only [Bool.or_eq_false_iff]
  constructor
  · rintro ⟨⟨⟨⟨hemp, hstart⟩, hend⟩, hdd⟩, hany⟩
    refine ⟨by simpa using hemp, hstart, ?_, hend, ?_⟩
    · have hsome := findDotDot_isSome l
      rw [hdd] at hsome
      cases hf : findDotDot l with
      | none => rfl
      | some i =>
        rw [hf] at hsome
        cases hsome
    · intro c hc
      by_contra hcc
      have : l.any is_not_atext = true :=
        List.any_eq_true.mpr ⟨c, hc, by simpa using hcc⟩
      rw [this] at hany
      cases hany
  · rintro ⟨hne, hstart, hfind, hend, hall⟩
    refine ⟨⟨⟨⟨by simpa using hne, hstart⟩, hend⟩, ?_⟩, ?_⟩
    · rw [← findDotDot_isSome, hfind]
      rfl
    · cases hany : l.any is_not_atext with
      | false => rfl
      | true =>
        obtain ⟨c, hc, hcc⟩ := List.any_eq_true.mp hany
        rw [hall c hc] at hcc
        cases hcc

theorem local_reparse_unquoted (pos : Nat) (lp t : List Char)
    (hs : dotAtomSpan lp) :
    parse_local_part pos (lp ++ '@' :: t)
      = .ok (lp, pos + utf8Len lp, '@' :: t) := by
  obtain ⟨hne, hstart, hfind, hend, hall⟩ := hs
  rcases lp with _ | ⟨c, cs⟩
  · exact absurd rfl hne
  · have hcq : (c == '"') = false :=
      not_atext_ne (hall c (by simp)) (by decide)
    rw [List.cons_append, plp_cons, if_neg (by simp [hcq]), ← List.cons_append]
    rw [parse_dot_atom_roundtrip _ _ pos (c :: cs) ('@' :: t)
      ⟨hne, hstart, hfind, hend, hall⟩ (Or.inr ⟨'@', t, rfl, by decide⟩)]
    rfl

theorem local_reparse_quoted (pos : Nat) (lp t : List Char)
    (hlp : ∀ c ∈ lp, is_ascii_control_and_not_htab c = false) :
    parse_local_part pos (('"' :: (quote lp ++ ['"'])) ++ '@' :: t)
      = .ok (lp, pos + 1 + utf8Len (quote lp) + 1, '@' :: t) := by
  have hshape : ('"' :: (quote lp ++ ['"'])) ++ '@' :: t
      = '"' :: (quote lp ++ '"' :: '@' :: t) := by
    simp
  rw [hshape, plp_cons, if_pos (by decide),
    quote_reparse _ _ lp hlp (pos + 1) ('@' :: t)]
  rfl

theorem domain_reparse_atom (pos : Nat) (d : List Char) (hs : dotAtomSpan d) :
    parse_domain pos d = .ok ((d, false), pos + utf8Len d, []) := by
  obtain ⟨hne, hstart, hfind, hend, hall⟩ := hs
  rcases d with _ | ⟨c, cs⟩
  · exact absurd rfl hne
  · have hcb : (c == '[') = false :=
      not_atext_ne (hall c (by simp)) (by decide)
    rw [pd_cons, if_neg (by simp [hcb])]
    have hrt := parse_dot_atom_roundtrip "non-literal domain cannot be empty"
      "empty label in domain" pos (c :: cs) []
      ⟨hne, hstart, hfind, hend, hall⟩ (Or.inl rfl)
    rw [List.append_nil] at hrt
    rw [hrt]
    rfl

theorem domain_reparse_lit (pos : Nat) (d : List Char)
    (hd : ∀ c ∈ d, is_not_dtext c = false) :
    parse_domain pos ('[' :: (d ++ [']']))
      = .ok ((d, true), pos + 1 + utf8Len d + 1, []) := by
  rw [pd_cons, if_pos (by decide),
    show d ++ [']'] = d ++ ']' :: [] from rfl,
    domain_literal_reparse (pos + 1) d [] hd]
  rfl

/-- C1: for every input that parses to an `AddrSpec`, re-parsing the
`Display` serialization succeeds and returns the same `AddrSpec`
(equal local part, domain and literal flag). -/
theorem parse_display_roundtrip (s : List Char) (a : AddrSpec)
    (h : parse s = .ok a) : parse (display a) = .ok a := by
  obtain ⟨lp, dd, lit⟩ := a
  obtain ⟨hlp, hdF, hdT⟩ := parse_ok_inv s lp dd lit h
  rw [display]
  cases hq : AddrSpec.is_quoted ⟨lp, dd, lit⟩ with
  | false =>
    have hspan : dotAtomSpan lp := (is_quoted_false_iff lp).mp hq
    rw [if_neg (by simp [hq])]
    cases lit with
    | false =>
      rw [show AddrSpec.is_literal ⟨lp, dd, false⟩ = false from rfl,
        if_neg (by simp)]
      exact parse_steps _ lp dd false _ _ _ _ _ _
        (local_reparse_unquoted 0 lp dd hspan)
        (skip_at_ok _ dd)
        (domain_reparse_atom _ dd (hdF rfl))
        (check_end_nil _ _)
    | true =>
      rw [show AddrSpec.is_literal ⟨lp, dd, true⟩ = true from rfl,
        if_pos rfl]
      exact parse_steps _ lp dd true _ _ _ _ _ _
        (local_reparse_unquoted 0 lp ('[' :: (dd ++ [']'])) hspan)
        (skip_at_ok _ ('[' :: (dd ++ [']'])))
        (domain_reparse_lit _ dd (hdT rfl))
        (check_end_nil _ _)
  | true =>
    rw [if_pos (by simp [hq])]
    cases lit with
    | false =>
      rw [show AddrSpec.is_literal ⟨lp, dd, false⟩ = false from rfl,
        if_neg (by simp)]
      exact parse_steps _ lp dd false _ _ _ _ _ _
        (local_reparse_quoted 0 lp dd hlp)
        (skip_at_ok _ dd)
        (domain_reparse_atom _ dd (hdF rfl))
        (check_end_nil _ _)
    | true =>
      rw [show AddrSpec.is_literal ⟨lp, dd, true⟩ = true from rfl,
        if_pos rfl]
      exact parse_steps _ lp dd true _ _ _ _ _ _
        (local_reparse_quoted 0 lp ('[' :: (dd ++ [']'])) hlp)
        (skip_at_ok _ ('[' :: (dd ++ [']'])))
        (domain_reparse_lit _ dd (hdT rfl))
        (check_end_nil _ _)

theorem check_end_cons (msg : String) (pos : Nat) (c : Char) (r : List Char) :
    check_end msg pos (c :: r) = .error (msg, pos) := rfl

theorem findByteIdx_none_iff (p : Char → Bool) (l : List Char) :
    findByteIdx p l = none ↔ l.any p = false := by
  induction l with
  | nil => simp [findByteIdx]
  | cons c cs ih =>
    by_cases hc : p c = true
    · simp [findByteIdx, hc]
    · simp only [Bool.not_eq_true] at hc
      simp [findByteIdx, hc, ih, Option.map_eq_none']

theorem all_not_eq_any (p : Char → Bool) (l : List Char) :
    l.all (fun c => !p c) = !(l.any p) := by
  induction l with
  | nil => rfl
  | cons c cs ih => simp [List.all_cons, List.any_cons, ih]

theorem validDotAtom_iff (d : List Char) : validDotAtom d = true ↔ dotAtomSpan d := by
  rw [← is_quoted_false_iff d, validDotAtom, any_or_distrib,
    segAny_eq is_not_atext (by decide)]
  constructor
  · intro h
    simp only [Bool.and_eq_true] at h
    obtain ⟨⟨h1, h2⟩, h3⟩ := h
    rw [all_not_eq_any] at h2
    simp only [Bool.not_eq_true'] at h2 h3
    rw [h3, h2]
    rfl
  · intro h
    have h1 := Bool.or_eq_false_iff.mp h
    have hie : (d.isEmpty : Bool) = false := by
      have hmain := (emptySeg_spec d).1
      rw [h1.1] at hmain
      exact (Bool.or_eq_false_iff.mp
        (Bool.or_eq_false_iff.mp
          (Bool.or_eq_false_iff.mp hmain.symm).1).1).1
    simp [Bool.and_eq_true, hie, all_not_eq_any, h1.1, h1.2]

theorem dropWhile_head_false (p : Char → Bool) (l : List Char) (c : Char)
    (r : List Char) (h : l.dropWhile p = c :: r) : p c = false := by
  induction l with
  | nil => simp [List.dropWhile] at h
  | cons x xs ih =>
    rw [List.dropWhile_cons] at h
    by_cases hx : p x = true
    · rw [if_pos hx] at h
      exact ih h
    · rw [if_neg hx] at h
      injection h with h1 h2
      subst h1
      simpa using hx

theorem parse_dot_atom_ok_rest (e1 e2 : String) (pos : Nat) (input s : List Char)
    (p : Nat) (r : List Char)
    (h : parse_dot_atom e1 e2 pos input = .ok (s, p, r)) :
    r = input.dropWhile (fun c => !is_not_atext c) := by
  rw [parse_dot_atom] at h
  obtain ⟨_, hr, _⟩ := dot_atom_check_ok _ _ _ _ _ _ _ _ h
  rw [hr, drop_takeWhile_length]

theorem new_eq_error_of_ctl (lp d : List Char)
    (h : lp.any is_ascii_control_and_not_htab = true) :
    ∃ e, new lp d = .error e := by
  cases hfi : findByteIdx is_ascii_control_and_not_htab lp with
  | none =>
    have := (findByteIdx_none_iff _ _).mp hfi
    rw [h] at this
    cases this
  | some i =>
    exact ⟨("invalid character in local part", i), by rw [new, new_impl, hfi]⟩

theorem new_eq_of_no_ctl (lp d : List Char)
    (h : lp.any is_ascii_control_and_not_htab = false) :
    new lp d =
      (match parse_dot_atom "empty label in domain" "empty label in domain" 0 d with
       | .error e => .error e
       | .ok (_, pos, rest) =>
         match check_end "invalid character in domain" pos rest with
         | .error e => .error e
         | .ok _ => .ok ⟨normalize lp, normalize d, false⟩) := by
  have hf : findByteIdx is_ascii_control_and_not_htab lp = none :=
    (findByteIdx_none_iff _ _).mpr h
  rw [new, new_impl, hf]
  rfl

theorem findDotDot_append {u : List Char} (hdd : hasDotDot u = false)
    (hend : endsDot u = false) (w : List Char) :
    findDotDot (u ++ '.' :: '.' :: w) = some (utf8Len u) := by
  match u with
  | [] =>
    rw [List.nil_append]
    simp [findDotDot, utf8Len]
  | [c] =>
    have hc : (c == '.') = false := by simpa [endsDot] using hend
    rw [List.cons_append, List.nil_append,
      show findDotDot (c :: '.' :: '.' :: w)
        = if c == '.' && '.' == '.' then some 0
          else (findDotDot ('.' :: '.' :: w)).map (fun n => c.utf8Size + n)
        from rfl,
      if_neg (by simp [hc]),
      show findDotDot ('.' :: '.' :: w) = some 0 by simp [findDotDot]]
    simp [utf8Len]
  | c :: e :: u2 =>
    have h1 : (c == '.' && e == '.') = false := by
      rw [hasDotDot] at hdd
      exact (Bool.or_eq_false_iff.mp hdd).1
    have h2 : hasDotDot (e :: u2) = false := by
      rw [hasDotDot] at hdd
      exact (Bool.or_eq_false_iff.mp hdd).2
    have h3 : endsDot (e :: u2) = false := hend
    have ih := findDotDot_append h2 h3 w
    simp only [List.cons_append]
    rw [show findDotDot (c :: e :: (u2 ++ '.' :: '.' :: w))
        = if c == '.' && e == '.' then some 0
          else (findDotDot (e :: (u2 ++ '.' :: '.' :: w))).map
            (fun n => c.utf8Size + n)
        from rfl,
      if_neg (by simp [h1])]
    rw [show e :: (u2 ++ '.' :: '.' :: w) = (e :: u2) ++ '.' :: '.' :: w from rfl,
      ih]
    rfl

theorem dot_atom_check_dotdot (e1 e2 : String) (pos : Nat) (da rest : List Char)
    (i : Nat) (hne : (da.isEmpty : Bool) = false) (hstart : startsDot da = false)
    (hfind : findDotDot da = some i) :
    dot_atom_check e1 e2 pos da rest = .error (e2, pos + i) := by
  rw [dot_atom_check, if_neg (by simp [hne]), if_neg (by simp [hstart]), hfind]

/-! ### Claim theorems -/

/-- C1: for every input string that parses successfully to an `AddrSpec`,
parsing the `Display` serialization succeeds and yields an equal
`AddrSpec`: same local part, same domain, same literal flag. -/
theorem C1_round_trip (s : List Char) (a : AddrSpec)
    (h : parse s = .ok a) : parse (display a) = .ok a :=
  parse_display_roundtrip s a h

theorem C1_round_trip_witness :
    parse (display ⟨String.toList "x", String.toList "y", false⟩)
      = .ok ⟨String.toList "x", String.toList "y", false⟩ :=
  C1_round_trip (String.toList "x@y") _ rfl

theorem specForbidden_eq (c : Char) : specForbiddenChar c = is_not_atext c := rfl

/-- C2: `is_quoted` returns true exactly when the stored local part, split
on dots, has an empty segment or a segment containing a character of the
specification's forbidden class (a control character or one of the twelve
listed delimiters). -/
theorem C2_is_quoted_iff (a : AddrSpec) :
    a.is_quoted = true ↔
      ∃ seg ∈ splitOnDot a.local_part,
        seg = [] ∨ ∃ c ∈ seg, specForbiddenChar c = true := by
  rw [AddrSpec.is_quoted, List.any_eq_true]
  constructor
  · rintro ⟨seg, hseg, hcond⟩
    refine ⟨seg, hseg, ?_⟩
    have hcond2 : seg.isEmpty = true ∨ seg.any is_not_atext = true := by
      simpa using hcond
    rcases hcond2 with h | h
    · left
      simpa using h
    · right
      obtain ⟨c, hc, hcc⟩ := List.any_eq_true.mp h
      exact ⟨c, hc, by rw [specForbidden_eq]; exact hcc⟩
  · rintro ⟨seg, hseg, hemp | ⟨c, hc, hcc⟩⟩
    · exact ⟨seg, hseg, by simp [hemp]⟩
    · refine ⟨seg, hseg, ?_⟩
      have hany : seg.any is_not_atext = true :=
        List.any_eq_true.mpr ⟨c, hc, by rw [← specForbidden_eq]; exact hcc⟩
      simp [hany]

theorem quote_eq_join (l : List Char) :
    quote l = (l.map (fun c =>
      if c == '\\' || c == '"' || c == ' ' || c == '\t'
      then ['\\', c] else [c])).flatten := by
  induction l with
  | nil => rfl
  | cons c cs ih =>
    rw [List.map_cons, List.flatten]
    by_cases he : escapedChar c = true
    · rw [show quote (c :: cs) = '\\' :: c :: quote cs by rw [quote, if_pos he],
        if_pos (by simpa [escapedChar, Bool.or_assoc] using he), ih]
      rfl
    · rw [show quote (c :: cs) = c :: quote cs by
          rw [quote, if_neg (by simpa using he)],
        if_neg (by simpa [escapedChar, Bool.or_assoc] using he), ih]
      rfl

/-- C3 (counterexample): on a local part containing a space, the `Display`
serialization escapes the space as well, not only backslash and
double-quote. -/
theorem C3_counterexample :
    display ⟨String.toList "a b", String.toList "ex", false⟩
      = String.toList "\"a\\ b\"@ex" := rfl

/-- C3 (amended): when the local part requires quoting, `Display` wraps it
in double quotes and escapes, with a preceding backslash, exactly the
occurrences of backslash, double-quote, space and tab — the same escape
set as `into_serialized_parts`. -/
theorem C3_display_escapes (a : AddrSpec) (hq : a.is_quoted = true) :
    display a =
      '"' :: ((a.local_part.map (fun c =>
          if c == '\\' || c == '"' || c == ' ' || c == '\t'
          then ['\\', c] else [c])).flatten ++ ['"'])
        ++ '@' :: (if a.is_literal then '[' :: (a.domain ++ [']']) else a.domain) := by
  rw [display, if_pos hq, quote_eq_join]

theorem C3_display_escapes_witness :
    AddrSpec.is_quoted ⟨String.toList "a b", String.toList "ex", false⟩ = true ∧
      display ⟨String.toList "a b", String.toList "ex", false⟩ =
        '"' :: (((String.toList "a b").map (fun c =>
            if c == '\\' || c == '"' || c == ' ' || c == '\t'
            then ['\\', c] else [c])).flatten ++ ['"'])
          ++ '@' :: (String.toList "ex") :=
  ⟨rfl, C3_display_escapes ⟨String.toList "a b", String.toList "ex", false⟩ rfl⟩

/-- C4 (counterexample): parsing the empty string fails with the dedicated
message "unquoted local part cannot be empty" at offset 0, not with the
"empty label" diagnostic. -/
theorem C4_counterexample :
    parse [] = .error ("unquoted local part cannot be empty", 0) := rfl

/-- C4 (amended): the empty string fails at offset 0 with the dedicated
message "unquoted local part cannot be empty"; the empty-span diagnostics
of local part and domain are distinct messages, separate from the
"empty label" messages. -/
theorem C4_empty_diagnostics :
    parse [] = .error ("unquoted local part cannot be empty", 0) ∧
      parse (String.toList "x@")
        = .error ("non-literal domain cannot be empty", 2) := ⟨rfl, rfl⟩

/-- C5 (counterexample): `te..st@example.com` fails with
"empty label in local part" at byte offset 2 — the position of the first
dot of the doubled pair — not at offset 3. -/
theorem C5_counterexample :
    parse (String.toList "te..st@example.com")
      = .error ("empty label in local part", 2) := rfl

theorem parse_dot_atom_dotdot (e1 e2 : String) (pos : Nat) (u v : List Char)
    (hne : u ≠ []) (hstart : startsDot u = false) (hend : endsDot u = false)
    (hdd : hasDotDot u = false)
    (hall : ∀ c ∈ u, is_not_atext c = false) :
    parse_dot_atom e1 e2 pos (u ++ '.' :: '.' :: v)
      = .error (e2, pos + utf8Len u) := by
  have hdot : (!is_not_atext '.') = true := by decide
  have htake : (u ++ '.' :: '.' :: v).takeWhile (fun c => !is_not_atext c)
      = u ++ '.' :: '.' :: v.takeWhile (fun c => !is_not_atext c) := by
    rw [takeWhile_append_all _ _ _ (fun c hc => by simp [hall c hc])]
    rw [List.takeWhile_cons, if_pos (by simpa using hdot),
      List.takeWhile_cons, if_pos (by simpa using hdot)]
  have hfind2 : findDotDot (u ++ '.' :: '.' :: v.takeWhile (fun c => !is_not_atext c))
      = some (utf8Len u) := findDotDot_append hdd hend _
  obtain ⟨c, cs, rfl⟩ : ∃ c cs, u = c :: cs := by
    rcases u with _ | ⟨c, cs⟩
    · exact absurd rfl hne
    · exact ⟨c, cs, rfl⟩
  have hcheck := dot_atom_check_dotdot e1 e2 pos
    (c :: cs ++ '.' :: '.' :: v.takeWhile (fun x => !is_not_atext x))
    (List.drop
      (c :: cs ++ '.' :: '.' :: v.takeWhile (fun x => !is_not_atext x)).length
      (c :: cs ++ '.' :: '.' :: v))
    (utf8Len (c :: cs)) (by simp)
    (show startsDot (c :: cs ++ '.' :: '.'
      :: v.takeWhile (fun x => !is_not_atext x)) = false from hstart)
    hfind2
  rw [parse_dot_atom, htake, hcheck]

theorem plp_dotdot (pos : Nat) (u v : List Char)
    (hne : u ≠ []) (hstart : startsDot u = false) (hend : endsDot u = false)
    (hdd : hasDotDot u = false)
    (hall : ∀ c ∈ u, is_not_atext c = false) :
    parse_local_part pos (u ++ '.' :: '.' :: v)
      = .error ("empty label in local part", pos + utf8Len u) := by
  obtain ⟨c, cs, rfl⟩ : ∃ c cs, u = c :: cs := by
    rcases u with _ | ⟨c, cs⟩
    · exact absurd rfl hne
    · exact ⟨c, cs, rfl⟩
  have hcq : (c == '"') = false := not_atext_ne (hall c (by simp)) (by decide)
  rw [List.cons_append, plp_cons, if_neg (by simp [hcq]), ← List.cons_append,
    parse_dot_atom_dotdot "unquoted local part cannot be empty"
      "empty label in local part" pos (c :: cs) v hne hstart hend hdd hall]

theorem pd_dotdot (pos : Nat) (u v : List Char)
    (hne : u ≠ []) (hstart : startsDot u = false) (hend : endsDot u = false)
    (hdd : hasDotDot u = false)
    (hall : ∀ c ∈ u, is_not_atext c = false) :
    parse_domain pos (u ++ '.' :: '.' :: v)
      = .error ("empty label in domain", pos + utf8Len u) := by
  obtain ⟨c, cs, rfl⟩ : ∃ c cs, u = c :: cs := by
    rcases u with _ | ⟨c, cs⟩
    · exact absurd rfl hne
    · exact ⟨c, cs, rfl⟩
  have hcb : (c == '[') = false := not_atext_ne (hall c (by simp)) (by decide)
  rw [List.cons_append, pd_cons, if_neg (by simp [hcb]), ← List.cons_append,
    parse_dot_atom_dotdot "non-literal domain cannot be empty"
      "empty label in domain" pos (c :: cs) v hne hstart hend hdd hall]

/-- C5 (amended): for every dot-atom span containing a doubled dot —
whether it is the local part or the domain — the error offset is the byte
position, in the whole input, of the first dot of the `..` pair (one byte
before the start of the empty label): a local-part span starting at
offset 0 fails at `utf8Len u`, and a domain span preceded by a local part
and the `@` fails at `utf8Len lp + 1 + utf8Len u`. -/
theorem C5_dotdot_offset (u v : List Char) (hne : u ≠ [])
    (hstart : startsDot u = false) (hend : endsDot u = false)
    (hdd : hasDotDot u = false)
    (hall : ∀ c ∈ u, is_not_atext c = false) :
    parse (u ++ '.' :: '.' :: v)
        = .error ("empty label in local part", utf8Len u)
      ∧ ∀ lp, dotAtomSpan lp →
          parse (lp ++ '@' :: (u ++ '.' :: '.' :: v))
            = .error ("empty label in domain", utf8Len lp + 1 + utf8Len u) := by
  constructor
  · have herr := plp_dotdot 0 u v hne hstart hend hdd hall
    rw [Nat.zero_add] at herr
    unfold parse
    simp only [herr]
  · intro lp hlp
    have h1 := local_reparse_unquoted 0 lp (u ++ '.' :: '.' :: v) hlp
    have h2 := skip_at_ok (0 + utf8Len lp) (u ++ '.' :: '.' :: v)
    have h3 := pd_dotdot (0 + utf8Len lp + 1) u v hne hstart hend hdd hall
    unfold parse
    simp only [h1, h2, h3]
    simp

theorem C5_dotdot_offset_witness :
    (parse (['t', 'e'] ++ '.' :: '.' :: String.toList "st@x")
        = .error ("empty label in local part", utf8Len ['t', 'e']))
      ∧ parse (['a'] ++ '@' :: (['t', 'e'] ++ '.' :: '.' :: String.toList "st"))
          = .error ("empty label in domain", utf8Len ['a'] + 1 + utf8Len ['t', 'e']) :=
  ⟨(C5_dotdot_offset ['t', 'e'] (String.toList "st@x") (by decide) (by decide)
      (by decide) (by decide) (by decide)).1,
   (C5_dotdot_offset ['t', 'e'] (String.toList "st") (by decide) (by decide)
      (by decide) (by decide) (by decide)).2 ['a']
     ⟨by decide, by decide, by decide, by decide, by decide⟩⟩

/-- C6: the claim that every error offset is a valid byte index into the
input is contradicted by the code: on the four-byte input `jdoe` the
missing-`@` error carries offset 5, past the end of the input. -/
theorem C6_offset_out_of_bounds :
    parse (String.toList "jdoe") = .error ("expected '@'", 5) ∧
      utf8Len (String.toList "jdoe") = 4 := ⟨rfl, rfl⟩

/-- C7: the claim that the missing-`@` error points immediately after the
local-part content is contradicted by the code: on `te st` the local part
ends at byte 2, yet the error carries offset 3 (`skip_at` adds one). -/
theorem C7_expected_at_offset :
    parse (String.toList "te st") = .error ("expected '@'", 3) ∧
      utf8Len (String.toList "te") = 2 := ⟨rfl, rfl⟩

/-- C8: `new` fails exactly when the local part contains a control
character other than horizontal tab or the domain is not a valid
dot-atom; on success the stored fields are the normalized arguments and
the literal flag is false. -/
theorem C8_new_spec (lp d : List Char) :
    ((∃ e, new lp d = .error e)
        ↔ (lp.any is_ascii_control_and_not_htab = true ∨ validDotAtom d = false))
      ∧ ∀ a, new lp d = .ok a → a = ⟨normalize lp, normalize d, false⟩ := by
  by_cases hany : lp.any is_ascii_control_and_not_htab = true
  · obtain ⟨e, he⟩ := new_eq_error_of_ctl lp d hany
    refine ⟨⟨fun _ => Or.inl hany, fun _ => ⟨e, he⟩⟩, ?_⟩
    intro a ha
    rw [he] at ha
    exact absurd ha (by simp)
  · have hanyf : lp.any is_ascii_control_and_not_htab = false := by
      simpa using hany
    have hne := new_eq_of_no_ctl lp d hanyf
    cases hda : parse_dot_atom "empty label in domain" "empty label in domain" 0 d with
    | error e =>
      have hv : validDotAtom d = false := by
        by_contra hvv
        have hvt : validDotAtom d = true := by simpa using hvv
        have hspan := (validDotAtom_iff d).mp hvt
        have hrt := parse_dot_atom_roundtrip "empty label in domain"
          "empty label in domain" 0 d [] hspan (Or.inl rfl)
        rw [List.append_nil] at hrt
        rw [hrt] at hda
        simp at hda
      refine ⟨⟨fun _ => Or.inr hv, fun _ => ⟨e, by rw [hne, hda]⟩⟩, ?_⟩
      intro a ha
      rw [hne, hda] at ha
      exact absurd ha (by simp)
    | ok v =>
      obtain ⟨sp, pos, rest⟩ := v
      obtain ⟨hspan, heq, hpos⟩ := parse_dot_atom_ok _ _ _ _ _ _ _ hda
      have hrw := parse_dot_atom_ok_rest _ _ _ _ _ _ _ hda
      rcases rest with _ | ⟨c, r2⟩
      · have hd : d = sp := by
          rw [heq, List.append_nil]
        have hvt : validDotAtom d = true := (validDotAtom_iff d).mpr (hd ▸ hspan)
        refine ⟨⟨?_, ?_⟩, ?_⟩
        · rintro ⟨e, he⟩
          rw [hne, hda] at he
          simp [check_end_nil] at he
        · rintro (hl | hr)
          · rw [hanyf] at hl
            cases hl
          · rw [hvt] at hr
            cases hr
        · intro a ha
          rw [hne, hda] at ha
          simp only [check_end_nil] at ha
          injection ha with ha
          exact ha.symm
      · have hc : is_not_atext c = true := by
          have := dropWhile_head_false _ _ _ _ hrw.symm
          simpa using this
        have hcd : c ∈ d := by
          rw [heq]
          exact List.mem_append.mpr (Or.inr (by simp))
        have hallf : d.all (fun x => !is_not_atext x) = false := by
          cases hv2 : d.all (fun x => !is_not_atext x) with
          | true =>
            have := List.all_eq_true.mp hv2 c hcd
            rw [hc] at this
            cases this
          | false => rfl
        have hv : validDotAtom d = false := by
          rw [validDotAtom, hallf]
          simp
        refine ⟨⟨fun _ => Or.inr hv, fun _ => ?_⟩, ?_⟩
        · refine ⟨("invalid character in domain", pos), ?_⟩
          rw [hne, hda]
          simp [check_end_cons]
        · intro a ha
          rw [hne, hda] at ha
          simp [check_end_cons] at ha

theorem C8_new_spec_witness :
    AddrSpec.mk (String.toList "test") (String.toList "ex.com") false
      = ⟨normalize (String.toList "test"), normalize (String.toList "ex.com"), false⟩ :=
  (C8_new_spec (String.toList "test") (String.toList "ex.com")).2
    ⟨String.toList "test", String.toList "ex.com", false⟩ rfl

/-- C9: the `Display` serialization equals the serialized parts joined by
`@`: both paths share the quoting decision, the escape set and the
bracket-wrapping of literal domains. -/
theorem C9_display_eq_parts (a : AddrSpec) :
    display a = (AddrSpec.into_serialized_parts a).1
      ++ '@' :: (AddrSpec.into_serialized_parts a).2 := by
  rw [display, AddrSpec.into_serialized_parts]
  cases hq : a.is_quoted <;> cases hl : a.is_literal <;> simp

/-- C10: with literal domains enabled, the empty domain literal is
accepted: `x@[]` parses to local part `x`, empty domain, literal flag
true. -/
theorem C10_empty_literal :
    parse (String.toList "x@[]") = .ok ⟨String.toList "x", [], true⟩ ∧
      (AddrSpec.mk (String.toList "x") [] true).is_literal = true := ⟨rfl, rfl⟩

end AddrSpecModel
